import Mathlib

/-!
# Verification of the QSR-News RSS digest pipeline (`src/rss_digest.py`)

Shallow embedding of the core pipeline:
text is modelled as `List Nat` of Unicode codepoints; Python functions
become Lean functions; the external `feedparser` / `dateutil` capabilities
become function parameters (`src`, `dp`).  The compiled regex
`\b + re.escape(kw.lower()) + \b` is modelled semantically as a
word-boundary-anchored search for the literal `kw.lower()` (ASCII model of
`str.lower` and of the `\w` word-character class, which covers all
configured keywords and the claims below).
-/

set_option autoImplicit false

namespace RSS

/-- Text as a list of Unicode codepoints. -/
abbrev Str := List Nat

/-- Convert a Lean string literal to the codepoint model. -/
def strOf (s : String) : Str := s.data.map Char.toNat

/-- Membership in Python's `string.punctuation`
(the 32 ASCII punctuation characters, codes 33-47, 58-64, 91-96, 123-126). -/
def isPunct (c : Nat) : Bool :=
  (33 ≤ c && c ≤ 47) || (58 ≤ c && c ≤ 64) || (91 ≤ c && c ≤ 96) || (123 ≤ c && c ≤ 126)

/-- ASCII model of Python `str.lower` applied codepoint-wise. -/
def pyLower (c : Nat) : Nat := if 65 ≤ c && c ≤ 90 then c + 32 else c

/-- `normalize_text` from `rss_digest.py`: lowercase, then delete every
character of `string.punctuation` (`text.lower().translate(...)`). -/
def normalize_text (s : Str) : Str := (s.map pyLower).filter (fun c => ! isPunct c)

/-- ASCII model of the regex word-character class `\w` (`[a-zA-Z0-9_]`). -/
def isWordChar (c : Nat) : Bool :=
  (48 ≤ c && c ≤ 57) || (65 ≤ c && c ≤ 90) || (97 ≤ c && c ≤ 122) || (c == 95)

/-- Word-ness of the character at a position, `none` = outside the text. -/
def optWord : Option Nat → Bool
  | none => false
  | some c => isWordChar c

/-- Regex `\b`: a boundary holds between two positions iff exactly one of the
surrounding characters is a word character (text edges count as non-word). -/
def boundary (l r : Option Nat) : Bool := optWord l != optWord r

/-- The character preceding the end of the matched literal `w`
(the character before the whole occurrence when `w` is empty). -/
def lastOr (w : Str) (prev : Option Nat) : Option Nat :=
  match w.getLast? with
  | some c => some c
  | none => prev

/-- Does the pattern `\b w \b` (with `w` a literal) match at this position?
`prev` is the character just before the position, `rest` the text from it. -/
def hereMatch (w : Str) (prev : Option Nat) (rest : Str) : Bool :=
  decide (rest.take w.length = w) &&
  boundary prev rest.head? &&
  boundary (lastOr w prev) ((rest.drop w.length).head?)

/-- `re.search` scan: try the pattern at every position of the text. -/
def searchFrom (w : Str) : Option Nat → Str → Bool
  | prev, [] => hereMatch w prev []
  | prev, c :: rest => hereMatch w prev (c :: rest) || searchFrom w (some c) rest

/-- `pattern.search(content)` for a compiled pattern `\b w \b`:
true iff the literal `w` occurs somewhere in `text` with word boundaries
on both sides. -/
def reSearch (w text : Str) : Bool := searchFrom w none text

/-- The compiled pattern of one keyword,
`re.compile(r'\b' + re.escape(kw.lower()) + r'\b')`: the `re.escape`d part
matches exactly the literal `kw.lower()`, so the pattern is represented by
that lowercased literal. -/
def keywordPattern (kw : Str) : Str := kw.map pyLower

/-- A raw feed entry as built in `fetch_rss_entries`
(`summary` and `published` default to `""` when absent). -/
structure RawEntry where
  title : Str
  link : Str
  summary : Str
  published : Str
deriving DecidableEq

/-- `tag_keywords(article, keyword_patterns, original_keywords)`:
normalize `title + " " + summary`, then for each `(pattern, keyword)` pair of
`zip(keyword_patterns, original_keywords)` in order, append the keyword to
the result when its pattern matches the normalized content. -/
def tag_keywords (article : RawEntry) (keyword_patterns original_keywords : List Str) :
    List Str :=
  let content := normalize_text (article.title ++ 32 :: article.summary)
  (keyword_patterns.zip original_keywords).filterMap
    (fun pk => if reSearch pk.1 content then some pk.2 else none)

/-- The configured keyword list `KEYWORDS` of `rss_digest.py`. -/
def KEYWORDS : List Str :=
  [strOf ("Inspire Brands"), strOf ("Dunkin"), strOf ("Sonic"), strOf ("Buffalo Wild Wings"),
   strOf ("BWW"), strOf ("Jimmy John's"),
   strOf ("Arby's"), strOf ("Baskin-Robbins"), strOf ("McDonald's"), strOf ("McDonalds"),
   strOf ("McD"), strOf ("Burger King"), strOf ("KFC"), strOf ("Wingstop"),
   strOf ("Starbucks"), strOf ("Chipotle"), strOf ("Taco Bell"), strOf ("Popeyes"),
   strOf ("Wendy's"), strOf ("Chick-fil-A"), strOf ("Panera"),
   strOf ("Plant-based"), strOf ("Vegan fast food"), strOf ("Lab-grown meat"),
   strOf ("Functional food"), strOf ("Mood-boosting food"),
   strOf ("Spicy"), strOf ("Sustainable packaging"), strOf ("Zero-waste"),
   strOf ("Ethical sourcing"), strOf ("Ghost kitchens"),
   strOf ("Virtual restaurants"), strOf ("AI drive-thru"), strOf ("Mobile ordering"),
   strOf ("Contactless payment"), strOf ("Personalized menu"),
   strOf ("Digital loyalty"), strOf ("Foodtainment"), strOf ("Pop culture menu"),
   strOf ("Secret menu hack"),
   strOf ("Fine dining fast food"), strOf ("Drinks-only locations"),
   strOf ("Korean fried chicken"), strOf ("Mexican street food"),
   strOf ("Southeast Asian flavors"), strOf ("Global fusion"), strOf ("International QSR"),
   strOf ("Spicy"), strOf ("consumer confidence"), strOf ("consumer spending"),
   strOf ("GenZ"), strOf ("culture trends"), strOf ("consumer preferences"),
   strOf ("Marketing strategies"), strOf ("Brand loyalty"), strOf ("Customer experience"),
   strOf ("Digital transformation"), strOf ("Sustainability"), strOf ("Health trends"),
   strOf ("Economic impact")]

/-- `KEYWORD_PATTERNS`: one compiled pattern per keyword, in list order. -/
def KEYWORD_PATTERNS : List Str := KEYWORDS.map keywordPattern

/-- `fetch_rss_entries(feeds)` with the external FeedSource capability
(`feedparser.parse` plus the per-entry field extraction) abstracted as
`src : α → Except ε (List RawEntry)`: each feed is fetched in order inside a
`try`; a failing feed is logged and skipped (`except` clause) and the entries
of the successful feeds are concatenated in feed-iteration order. -/
def fetch_rss_entries {α ε : Type} (src : α → Except ε (List RawEntry))
    (feeds : List α) : List RawEntry :=
  feeds.flatMap (fun f =>
    match src f with
    | Except.ok es => es
    | Except.error _ => [])

/-- A calendar date as produced by the external `dateutil` parser
(a Python `datetime`, whose fields always satisfy these bounds). -/
structure PyDate where
  year : Nat
  month : Nat
  day : Nat
  year_le : year ≤ 9999
  month_le : month ≤ 99
  day_le : day ≤ 99

/-- Two zero-padded decimal digits (`strftime` `%m` / `%d`). -/
def twoDigits (n : Nat) : Str := [48 + n / 10, 48 + n % 10]

/-- Four zero-padded decimal digits (`strftime` `%Y`). -/
def fourDigits (n : Nat) : Str :=
  [48 + n / 1000, 48 + n / 100 % 10, 48 + n / 10 % 10, 48 + n % 10]

/-- `date.strftime('%Y-%m-%d')`. -/
def formatYMD (d : PyDate) : Str :=
  fourDigits d.year ++ 45 :: (twoDigits d.month ++ 45 :: twoDigits d.day)

/-- The sentinel string `"Unknown Date"`. -/
def unknownDate : Str := strOf ("Unknown Date")

/-- Decidable shape check: exactly `"DDDD-DD-DD"` with decimal digits. -/
def isDigit (c : Nat) : Bool := 48 ≤ c && c ≤ 57

/-- Is the string of the exact shape `YYYY-MM-DD`? -/
def isYMD : Str → Bool
  | [a, b, c, d, e, f, g, h, i, j] =>
    isDigit a && isDigit b && isDigit c && isDigit d && e == 45 &&
    isDigit f && isDigit g && h == 45 && isDigit i && isDigit j
  | _ => false

/-- One row of the `results` list built by `process_rss_feeds`
(`Keywords` is the `", ".join(tags)` string). -/
structure TaggedResult where
  title : Str
  date : Str
  link : Str
  keywords : Str
  summary : Str
deriving DecidableEq

/-- `", ".join(tags)`. -/
def joinComma : List Str → Str
  | [] => []
  | [t] => t
  | t :: t2 :: ts => t ++ 44 :: 32 :: joinComma (t2 :: ts)

/-- The result row appended for one surviving article: parse `published` with
the external date parser `dp`; on success format `%Y-%m-%d`, on failure use
the `"Unknown Date"` sentinel (the `try`/`except` around `date_parser.parse`). -/
def mkResult (dp : Str → Option PyDate) (tags : List Str) (a : RawEntry) : TaggedResult :=
  { title := a.title
    date :=
      match dp a.published with
      | some d => formatYMD d
      | none => unknownDate
    link := a.link
    keywords := joinComma tags
    summary := a.summary }

/-- `process_rss_feeds(selected_feeds, selected_keyword_patterns,
selected_keywords)`: fetch all entries, tag each, keep only articles with a
non-empty tag list (`if tags:`), and append one result row per kept article
in aggregation order. -/
def process_rss_feeds {α ε : Type} (src : α → Except ε (List RawEntry))
    (dp : Str → Option PyDate) (selected_feeds : List α)
    (selected_keyword_patterns selected_keywords : List Str) : List TaggedResult :=
  (fetch_rss_entries src selected_feeds).filterMap (fun article =>
    let tags := tag_keywords article selected_keyword_patterns selected_keywords
    if tags = [] then none else some (mkResult dp tags article))

/-- Model of the `@st.cache_data` memo table within its validity window: an
association list from call key to stored result; a hit returns the stored
value and short-circuits the computation, a miss computes `f k`. -/
def cachedCall {κ β : Type} [DecidableEq κ] (f : κ → β) (cache : List (κ × β)) (k : κ) : β :=
  match cache.find? (fun p => decide (p.1 = k)) with
  | some p => p.2
  | none => f k

/-- A warm cache is coherent when every stored entry holds the value the
cached function produces for its key (the entry was stored by a prior run
within the TTL window against the same upstream feed content). -/
def cacheCoherent {κ β : Type} (f : κ → β) (cache : List (κ × β)) : Prop :=
  ∀ p ∈ cache, p.2 = f p.1

/-! ## Helper lemmas -/

/-- A successful scan contains an occurrence of the literal pattern. -/
lemma searchFrom_occurrence (w : Str) :
    ∀ (rest : Str) (prev : Option Nat), searchFrom w prev rest = true →
      ∃ pre post, rest = pre ++ w ++ post := by
  intro rest
  induction rest with
  | nil =>
    intro prev h
    simp only [searchFrom, hereMatch, List.take_nil, Bool.and_eq_true,
      decide_eq_true_eq] at h
    exact ⟨[], [], by simp [h.1.1]⟩
  | cons c rest ih =>
    intro prev h
    simp only [searchFrom, Bool.or_eq_true] at h
    rcases h with h | h
    · simp only [hereMatch, Bool.and_eq_true, decide_eq_true_eq] at h
      refine ⟨[], (c :: rest).drop w.length, ?_⟩
      conv_lhs => rw [← List.take_append_drop w.length (c :: rest)]
      rw [h.1.1]
      simp
    · obtain ⟨pre, post, hsplit⟩ := ih (some c) h
      exact ⟨c :: pre, post, by simp [hsplit]⟩

/-- `pattern.search` succeeding means the literal occurs contiguously. -/
lemma reSearch_occurrence {w text : Str} (h : reSearch w text = true) :
    ∃ pre post, text = pre ++ w ++ post :=
  searchFrom_occurrence w text none h

/-- Every character of a matched literal occurs in the searched text. -/
lemma mem_text_of_reSearch {w text : Str} (h : reSearch w text = true)
    {c : Nat} (hc : c ∈ w) : c ∈ text := by
  obtain ⟨pre, post, rfl⟩ := reSearch_occurrence h
  simp [hc]

/-- The normalized text contains no punctuation character. -/
lemma not_punct_of_mem_normalize {s : Str} {c : Nat} (h : c ∈ normalize_text s) :
    isPunct c = false := by
  have := (List.mem_filter.mp h).2
  simpa using this

/-- Punctuation codepoints are untouched by lowercasing. -/
lemma pyLower_of_punct {c : Nat} (h : isPunct c = true) : pyLower c = c := by
  simp only [isPunct, Bool.or_eq_true, Bool.and_eq_true, decide_eq_true_eq] at h
  simp only [pyLower]
  split
  · next hc =>
    simp only [Bool.and_eq_true, decide_eq_true_eq] at hc
    omega
  · rfl

/-- Lowercasing is idempotent codepoint-wise. -/
lemma pyLower_idem (c : Nat) : pyLower (pyLower c) = pyLower c := by
  simp only [pyLower]
  split
  · next hc =>
    simp only [Bool.and_eq_true, decide_eq_true_eq] at hc
    rw [if_neg]
    simp only [Bool.and_eq_true, decide_eq_true_eq, not_and]
    omega
  · rfl

/-- Every character of a normalized text is a fixed point of `pyLower`. -/
lemma pyLower_fix_of_mem_normalize {s : Str} {c : Nat} (h : c ∈ normalize_text s) :
    pyLower c = c := by
  have hm := (List.mem_filter.mp h).1
  obtain ⟨c0, _, rfl⟩ := List.mem_map.mp hm
  exact pyLower_idem c0

/-- Zipping a mapped list with the original pairs each element with its image. -/
lemma zip_map_self {γ : Type} (f : γ → γ) :
    ∀ l : List γ, (l.map f).zip l = l.map (fun k => (f k, k)) := by
  intro l
  induction l with
  | nil => rfl
  | cons k l ih => simp [ih]

/-- A conditional `filterMap` is a `filter` followed by a `map`. -/
lemma filterMap_ite_eq_filter_map {γ β : Type} (p : γ → Bool) (g : γ → β) :
    ∀ l : List γ,
      l.filterMap (fun x => if p x then some (g x) else none) = (l.filter p).map g := by
  intro l
  induction l with
  | nil => rfl
  | cons x l ih =>
    by_cases hx : p x = true
    · simp [List.filterMap_cons, List.filter_cons, hx, ih]
    · simp [List.filterMap_cons, List.filter_cons, hx, ih]

/-- The second projections of a zip form a sublist of the second list. -/
lemma map_snd_zip_sublist {γ β : Type} :
    ∀ (l1 : List γ) (l2 : List β), ((l1.zip l2).map Prod.snd).Sublist l2 := by
  intro l1
  induction l1 with
  | nil => intro l2; simp
  | cons x l1 ih =>
    intro l2
    cases l2 with
    | nil => simp
    | cons y l2 => simpa using List.Sublist.cons₂ y (ih l2)

/-- `tag_keywords` is the stable filter of the zipped pattern/keyword pairs,
projected to the keyword side. -/
lemma tag_keywords_eq_filter (a : RawEntry) (pats kws : List Str) :
    tag_keywords a pats kws =
      ((pats.zip kws).filter
        (fun pk => reSearch pk.1 (normalize_text (a.title ++ 32 :: a.summary)))).map
        Prod.snd :=
  filterMap_ite_eq_filter_map _ _ _

/-- `process_rss_feeds` is the stable filter of the aggregated entries,
mapped to result rows. -/
lemma process_rss_feeds_eq_filter {α ε : Type} (src : α → Except ε (List RawEntry))
    (dp : Str → Option PyDate) (feeds : List α) (pats kws : List Str) :
    process_rss_feeds src dp feeds pats kws =
      ((fetch_rss_entries src feeds).filter
        (fun a => ! decide (tag_keywords a pats kws = []))).map
        (fun a => mkResult dp (tag_keywords a pats kws) a) := by
  unfold process_rss_feeds
  generalize fetch_rss_entries src feeds = l
  induction l with
  | nil => rfl
  | cons a l ih =>
    by_cases ha : tag_keywords a pats kws = []
    · simp [List.filterMap_cons, List.filter_cons, ha, ih]
    · simp [List.filterMap_cons, List.filter_cons, ha, ih]

/-- The `%Y-%m-%d` format of any `datetime` date has the `YYYY-MM-DD` shape. -/
lemma isYMD_formatYMD (d : PyDate) : isYMD (formatYMD d) = true := by
  obtain ⟨y, m, dd, hy, hm, hd⟩ := d
  simp only [formatYMD, fourDigits, twoDigits, List.cons_append, List.nil_append,
    isYMD, isDigit, Bool.and_eq_true, decide_eq_true_eq, beq_iff_eq, and_true, true_and]
  omega

/-! ## Claim theorems -/

/-- C1: for every article and every ordered keyword list with its compiled
patterns, `tag_keywords` returns a subsequence of the keywords in the same
relative order as the keyword list, and a keyword appears in the output only
if its pattern matches the normalized `title + " " + summary` text. -/
theorem tag_subsequence (a : RawEntry) (pats kws : List Str) :
    (tag_keywords a pats kws).Sublist kws ∧
      ∀ kw ∈ tag_keywords a pats kws, ∃ p, (p, kw) ∈ pats.zip kws ∧
        reSearch p (normalize_text (a.title ++ 32 :: a.summary)) = true := by
  constructor
  · rw [tag_keywords_eq_filter]
    exact ((List.filter_sublist _).map Prod.snd).trans (map_snd_zip_sublist pats kws)
  · intro kw hkw
    rw [tag_keywords_eq_filter] at hkw
    obtain ⟨pk, hpk, rfl⟩ := List.mem_map.mp hkw
    have h2 := List.mem_filter.mp hpk
    exact ⟨pk.1, h2.1, h2.2⟩

/-- Witness for C1 at the spec's end-to-end example article. -/
theorem tag_subsequence_witness :
    strOf ("Chipotle") ∈
      tag_keywords ⟨strOf ("Chipotle launches new menu"), [], strOf ("details here"), []⟩
        [keywordPattern (strOf ("Chipotle")), keywordPattern (strOf ("Wendy's"))]
        [strOf ("Chipotle"), strOf ("Wendy's")] ∧
    ∃ p, (p, strOf ("Chipotle")) ∈
        [keywordPattern (strOf ("Chipotle")), keywordPattern (strOf ("Wendy's"))].zip
          [strOf ("Chipotle"), strOf ("Wendy's")] ∧
      reSearch p (normalize_text
        ((strOf ("Chipotle launches new menu")) ++ 32 :: strOf ("details here"))) = true :=
  ⟨by decide,
    (tag_subsequence
      ⟨strOf ("Chipotle launches new menu"), [], strOf ("details here"), []⟩
      [keywordPattern (strOf ("Chipotle")), keywordPattern (strOf ("Wendy's"))]
      [strOf ("Chipotle"), strOf ("Wendy's")]).2 (strOf ("Chipotle")) (by decide)⟩

/-- C2: keyword matching is word-boundary, not bare substring: `"McD"` does
not match inside `"McDonald's"`, but does match the standalone word in
`"McD announces"`; and any successful match is a contiguous occurrence of
the (lowercased) keyword in the text. -/
theorem word_boundary_matching :
    tag_keywords ⟨strOf ("McDonald's"), [], [], []⟩
        [keywordPattern (strOf ("McD"))] [strOf ("McD")] = [] ∧
    tag_keywords ⟨strOf ("McD announces"), [], [], []⟩
        [keywordPattern (strOf ("McD"))] [strOf ("McD")] = [strOf ("McD")] ∧
    ∀ w text : Str, reSearch w text = true → ∃ pre post, text = pre ++ w ++ post := by
  refine ⟨by decide, by decide, ?_⟩
  intro w text h
  exact reSearch_occurrence h

/-- Witness for C2's contiguity clause at a concrete multi-word keyword. -/
theorem word_boundary_matching_witness :
    reSearch (keywordPattern (strOf ("Taco Bell")))
        (normalize_text (strOf ("New Taco Bell items"))) = true ∧
      ∃ pre post, normalize_text (strOf ("New Taco Bell items")) =
        pre ++ keywordPattern (strOf ("Taco Bell")) ++ post :=
  ⟨by decide,
    word_boundary_matching.2.2 (keywordPattern (strOf ("Taco Bell")))
      (normalize_text (strOf ("New Taco Bell items"))) (by decide)⟩

/-- C7: `normalize_text` is idempotent. -/
theorem normalize_text_idem (x : Str) :
    normalize_text (normalize_text x) = normalize_text x := by
  have h1 : (normalize_text x).map pyLower = normalize_text x := by
    conv_rhs => rw [← List.map_id (normalize_text x)]
    exact List.map_congr_left (fun c hc => pyLower_fix_of_mem_normalize hc)
  show ((normalize_text x).map pyLower).filter _ = _
  rw [h1]
  exact List.filter_eq_self.mpr (fun c hc => by simp [not_punct_of_mem_normalize hc])

/-- C9: a keyword containing an ASCII punctuation character is never
returned by `tag_keywords`, for any article: its compiled pattern keeps the
punctuation character, but `normalize_text` strips every punctuation
character from the searched text. -/
theorem punct_keyword_never_tagged (a : RawEntry) (kws : List Str) (kw : Str)
    (hpunct : ∃ c ∈ kw, isPunct c = true) :
    kw ∉ tag_keywords a (kws.map keywordPattern) kws := by
  intro hmem
  rw [tag_keywords_eq_filter] at hmem
  obtain ⟨pk, hpk, hsnd⟩ := List.mem_map.mp hmem
  have h2 := List.mem_filter.mp hpk
  rw [zip_map_self] at h2
  obtain ⟨k, hk, rfl⟩ := List.mem_map.mp h2.1
  obtain rfl : k = kw := hsnd
  obtain ⟨c, hc, hcp⟩ := hpunct
  have hcpat : c ∈ keywordPattern k :=
    List.mem_map.mpr ⟨c, hc, pyLower_of_punct hcp⟩
  have hctext := mem_text_of_reSearch h2.2 hcpat
  have hnp := not_punct_of_mem_normalize hctext
  rw [hcp] at hnp
  exact absurd hnp (by simp)

/-- Witness for C9 at the keyword `"McDonald's"`. -/
theorem punct_keyword_never_tagged_witness :
    (∃ c ∈ strOf ("McDonald's"), isPunct c = true) ∧
      strOf ("McDonald's") ∉
        tag_keywords ⟨strOf ("McDonald's opens store"), [], [], []⟩
          ([strOf ("McDonald's")].map keywordPattern) [strOf ("McDonald's")] :=
  ⟨by decide,
    punct_keyword_never_tagged ⟨strOf ("McDonald's opens store"), [], [], []⟩
      [strOf ("McDonald's")] (strOf ("McDonald's")) (by decide)⟩

/-- C10: `tag_keywords` never deduplicates — it appends one displayForm per
matching (pattern, keyword) pair of the zipped lists — and the configured
`KEYWORDS` list contains `"Spicy"` twice, so an article matching it is
tagged `"Spicy"` twice. -/
theorem tag_keywords_no_dedup :
    (∀ (a : RawEntry) (pats kws : List Str),
      tag_keywords a pats kws =
        ((pats.zip kws).filter
          (fun pk => reSearch pk.1 (normalize_text (a.title ++ 32 :: a.summary)))).map
          Prod.snd) ∧
    KEYWORDS.count (strOf ("Spicy")) = 2 ∧
    tag_keywords ⟨strOf ("Spicy wings"), [], [], []⟩ KEYWORD_PATTERNS KEYWORDS =
      [strOf ("Spicy"), strOf ("Spicy")] :=
  ⟨tag_keywords_eq_filter, by decide, by decide⟩

/-- A cache whose entries are coherent is transparent: the lookup returns
exactly what the function computes. -/
lemma cachedCall_coherent {κ β : Type} [DecidableEq κ] (f : κ → β)
    (cache : List (κ × β)) (hco : cacheCoherent f cache) (k : κ) :
    cachedCall f cache k = f k := by
  unfold cachedCall
  cases hf : cache.find? (fun q => decide (q.1 = k)) with
  | none => rfl
  | some q =>
    have hmem := List.mem_of_find?_eq_some hf
    have hk : q.1 = k := by simpa using List.find?_some hf
    show q.2 = f k
    rw [hco q hmem, hk]

/-! ### Concrete demo inputs used by the witnesses -/

def entryA : RawEntry := ⟨strOf ("KFC expands"), strOf ("u1"), [], strOf ("2024-01-01")⟩

def entryB : RawEntry := ⟨strOf ("Wingstop report"), strOf ("u2"), [], []⟩

def entryC : RawEntry := ⟨strOf ("Panera menu"), strOf ("u3"), [], []⟩

/-- A demo FeedSource: feed 1 fails, every other feed returns three entries. -/
def srcDemo : Nat → Except Unit (List RawEntry) := fun n =>
  if n = 1 then Except.error () else Except.ok [entryA, entryB, entryC]

def entryChip : RawEntry :=
  ⟨strOf ("Chipotle launches new menu"), strOf ("L"), strOf ("details here"),
    strOf ("2024-01-15")⟩

/-- A demo FeedSource where every feed succeeds with one entry. -/
def srcOk : Nat → Except Unit (List RawEntry) := fun _ => Except.ok [entryChip]

def patsDemo : List Str := [keywordPattern (strOf ("Chipotle"))]

def kwsDemo : List Str := [strOf ("Chipotle")]

/-- A demo date parser: recognizes one ISO timestamp, fails on all else. -/
def dpDemo : Str → Option PyDate := fun s =>
  if s = strOf ("2024-03-01T10:00:00Z") then
    some ⟨2024, 3, 1, by omega, by omega, by omega⟩
  else none

def entryNoDate : RawEntry :=
  ⟨strOf ("Chipotle news"), strOf ("l1"), [], strOf ("not a date")⟩

def entryISO : RawEntry :=
  ⟨strOf ("Chipotle update"), strOf ("l2"), [], strOf ("2024-03-01T10:00:00Z")⟩

def keyDemo : List Nat × List Str × List Str := ([2], patsDemo, kwsDemo)

/-- A warm cache holding the previously computed pipeline result. -/
def cacheDemo : List ((List Nat × List Str × List Str) × List TaggedResult) :=
  [(keyDemo, process_rss_feeds srcOk dpDemo keyDemo.1 keyDemo.2.1 keyDemo.2.2)]

/-- C3: per-feed failure isolation — if one feed fails with a FetchError,
`fetch_rss_entries` returns exactly the concatenated entries of the
remaining feeds (and, being a total function, propagates no error). -/
theorem fetch_failure_isolation {α ε : Type} (src : α → Except ε (List RawEntry))
    (fs1 fs2 : List α) (f : α) (e : ε) (h : src f = Except.error e) :
    fetch_rss_entries src (fs1 ++ f :: fs2) =
      fetch_rss_entries src fs1 ++ fetch_rss_entries src fs2 := by
  simp [fetch_rss_entries, h]

/-- Witness for C3: feed 1 fails, feed 2 returns 3 entries; the fetch of
both returns exactly feed 2's 3 entries. -/
theorem fetch_failure_isolation_witness :
    srcDemo 1 = Except.error () ∧
      fetch_rss_entries srcDemo ([] ++ 1 :: [2]) =
        fetch_rss_entries srcDemo [] ++ fetch_rss_entries srcDemo [2] ∧
      fetch_rss_entries srcDemo [1, 2] = [entryA, entryB, entryC] :=
  ⟨rfl, fetch_failure_isolation srcDemo [] [2] 1 () rfl, by decide⟩

/-- C4: date fallback — for every emitted result the date field is either
the `"Unknown Date"` sentinel (when the external parser fails on the
entry's `published` string) or the parsed date formatted `YYYY-MM-DD`. -/
theorem date_fallback_shape {α ε : Type} (src : α → Except ε (List RawEntry))
    (dp : Str → Option PyDate) (feeds : List α) (pats kws : List Str) :
    (∀ r ∈ process_rss_feeds src dp feeds pats kws,
        r.date = unknownDate ∨ isYMD r.date = true) ∧
    (∀ (tags : List Str) (a : RawEntry), dp a.published = none →
        (mkResult dp tags a).date = unknownDate) ∧
    (∀ (tags : List Str) (a : RawEntry) (d : PyDate), dp a.published = some d →
        (mkResult dp tags a).date = formatYMD d) := by
  refine ⟨?_, ?_, ?_⟩
  · intro r hr
    rw [process_rss_feeds_eq_filter] at hr
    obtain ⟨a, ha, rfl⟩ := List.mem_map.mp hr
    cases hd : dp a.published with
    | none => exact Or.inl (by simp [mkResult, hd])
    | some d => exact Or.inr (by simp [mkResult, hd, isYMD_formatYMD])
  · intro tags a h
    simp [mkResult, h]
  · intro tags a d h
    simp [mkResult, h]

/-- Witness for C4 at `published = "not a date"` (sentinel) and
`published = "2024-03-01T10:00:00Z"` (formatted as `"2024-03-01"`). -/
theorem date_fallback_shape_witness :
    dpDemo entryNoDate.published = none ∧
    (mkResult dpDemo kwsDemo entryNoDate).date = unknownDate ∧
    (mkResult dpDemo kwsDemo entryISO).date =
      formatYMD ⟨2024, 3, 1, by omega, by omega, by omega⟩ ∧
    formatYMD ⟨2024, 3, 1, by omega, by omega, by omega⟩ = strOf ("2024-03-01") :=
  ⟨rfl,
    (date_fallback_shape srcOk dpDemo [] patsDemo kwsDemo).2.1 kwsDemo entryNoDate rfl,
    (date_fallback_shape srcOk dpDemo [] patsDemo kwsDemo).2.2 kwsDemo entryISO
      ⟨2024, 3, 1, by omega, by omega, by omega⟩ rfl,
    by decide⟩

/-- C5: zero-match drop — every result emitted by `process_rss_feeds` comes
from an aggregated entry whose matched-keyword list is non-empty; entries
matching no keyword never appear. -/
theorem emitted_results_have_matches {α ε : Type} (src : α → Except ε (List RawEntry))
    (dp : Str → Option PyDate) (feeds : List α) (pats kws : List Str)
    (r : TaggedResult) (hr : r ∈ process_rss_feeds src dp feeds pats kws) :
    ∃ a, a ∈ fetch_rss_entries src feeds ∧ tag_keywords a pats kws ≠ [] ∧
      r = mkResult dp (tag_keywords a pats kws) a := by
  rw [process_rss_feeds_eq_filter] at hr
  obtain ⟨a, ha, rfl⟩ := List.mem_map.mp hr
  have h2 := List.mem_filter.mp ha
  refine ⟨a, h2.1, ?_, rfl⟩
  simpa using h2.2

/-- Witness for C5 at a concrete single-feed, single-entry pipeline run. -/
theorem emitted_results_have_matches_witness :
    mkResult dpDemo (tag_keywords entryChip patsDemo kwsDemo) entryChip ∈
        process_rss_feeds srcOk dpDemo [0] patsDemo kwsDemo ∧
      ∃ a, a ∈ fetch_rss_entries srcOk [0] ∧ tag_keywords a patsDemo kwsDemo ≠ [] ∧
        mkResult dpDemo (tag_keywords entryChip patsDemo kwsDemo) entryChip =
          mkResult dpDemo (tag_keywords a patsDemo kwsDemo) a :=
  ⟨by decide,
    emitted_results_have_matches srcOk dpDemo [0] patsDemo kwsDemo
      (mkResult dpDemo (tag_keywords entryChip patsDemo kwsDemo) entryChip) (by decide)⟩

/-- C6: order preservation — `fetch_rss_entries` concatenates entries in
feed-iteration order with per-feed source order kept, and
`process_rss_feeds` is the stable filter-and-map of that aggregation order
(never re-sorted). -/
theorem order_preservation {α ε : Type} (src : α → Except ε (List RawEntry))
    (dp : Str → Option PyDate) (fs1 fs2 feeds : List α) (pats kws : List Str) :
    fetch_rss_entries src (fs1 ++ fs2) =
        fetch_rss_entries src fs1 ++ fetch_rss_entries src fs2 ∧
    (∀ f : α, fetch_rss_entries src [f] =
        match src f with
        | Except.ok es => es
        | Except.error _ => []) ∧
    process_rss_feeds src dp feeds pats kws =
      ((fetch_rss_entries src feeds).filter
        (fun a => ! decide (tag_keywords a pats kws = []))).map
        (fun a => mkResult dp (tag_keywords a pats kws) a) := by
  refine ⟨?_, ?_, process_rss_feeds_eq_filter src dp feeds pats kws⟩
  · simp [fetch_rss_entries]
  · intro f
    simp [fetch_rss_entries]

/-- C8: cache transparency — against fixed upstream responses, a warm
(coherent) cache invocation of the pipeline returns the same result as a
cold-cache invocation, which computes `process_rss_feeds` itself. -/
theorem cache_transparency {α ε : Type} [DecidableEq α]
    (src : α → Except ε (List RawEntry)) (dp : Str → Option PyDate)
    (cache : List ((List α × List Str × List Str) × List TaggedResult))
    (hco : cacheCoherent (fun k => process_rss_feeds src dp k.1 k.2.1 k.2.2) cache)
    (k : List α × List Str × List Str) :
    cachedCall (fun k => process_rss_feeds src dp k.1 k.2.1 k.2.2) cache k =
        cachedCall (fun k => process_rss_feeds src dp k.1 k.2.1 k.2.2) [] k ∧
      cachedCall (fun k => process_rss_feeds src dp k.1 k.2.1 k.2.2) [] k =
        process_rss_feeds src dp k.1 k.2.1 k.2.2 :=
  ⟨(cachedCall_coherent _ cache hco k).trans rfl, rfl⟩

/-- Witness for C8 at a concrete warm cache holding the prior result. -/
theorem cache_transparency_witness :
    cacheCoherent (fun k => process_rss_feeds srcOk dpDemo k.1 k.2.1 k.2.2) cacheDemo ∧
      (cachedCall (fun k => process_rss_feeds srcOk dpDemo k.1 k.2.1 k.2.2) cacheDemo
            keyDemo =
          cachedCall (fun k => process_rss_feeds srcOk dpDemo k.1 k.2.1 k.2.2) [] keyDemo ∧
        cachedCall (fun k => process_rss_feeds srcOk dpDemo k.1 k.2.1 k.2.2) [] keyDemo =
          process_rss_feeds srcOk dpDemo keyDemo.1 keyDemo.2.1 keyDemo.2.2) := by
  have hco : cacheCoherent (fun k => process_rss_feeds srcOk dpDemo k.1 k.2.1 k.2.2)
      cacheDemo := by
    intro p hp
    simp only [cacheDemo, List.mem_singleton] at hp
    subst hp
    rfl
  exact ⟨hco, cache_transparency srcOk dpDemo cacheDemo hco keyDemo⟩

end RSS
